import Mathlib

/-!
Verification of the extraction pipeline of the `doctor_scraper` repository
(`scraper.py`, with `selenium_scraper.py` as the near-duplicate variant).

Python strings are embedded as Lean `String`/`List Char`; `dict`-valued
records become structures with `Option`/`List` fields; BeautifulSoup
documents and elements are embedded as oracles mapping each CSS-selector
string to the elements (or their stripped text) that the selector returns,
so the selector-cascade logic is modelled exactly while the HTML parsing
library itself stays external, as in the source.  Python `float` ratings
are modelled as `ℚ` (only truthiness and exact sums of ratings matter to
the claims).  `Char.toLower`/`Char.toUpper` are ASCII, matching the ASCII
honorifics, keywords and regex character classes used by the source.
-/

/-- Python-style whitespace test (`str.strip` / `str.split` / `\s`). -/
def isWsChar (c : Char) : Bool := c.isWhitespace

/-- Python `s.lower()` on a character list. -/
def lowerL (l : List Char) : List Char := l.map Char.toLower

/-- Python `s.upper()` on a character list. -/
def upperL (l : List Char) : List Char := l.map Char.toUpper

/-- Python `s.strip()` : drop whitespace from both ends. -/
def stripL (l : List Char) : List Char :=
  ((l.dropWhile isWsChar).reverse.dropWhile isWsChar).reverse

/-- Python `s.strip()` at `String` level. -/
def pyStrip (s : String) : String := (stripL s.toList).asString

/-- Python `s.rstrip('.')` : drop trailing period characters. -/
def rstripDotL (l : List Char) : List Char :=
  (l.reverse.dropWhile (fun c => c == '.')).reverse

/-- All suffixes of a list, longest first (used for substring search). -/
def suffixesL (l : List Char) : List (List Char) :=
  match l with
  | [] => [[]]
  | c :: rest => (c :: rest) :: suffixesL rest

/-- Python `needle in hay` substring test on character lists. -/
def containsSubL (hay needle : List Char) : Bool :=
  (suffixesL hay).any (fun t => needle.isPrefixOf t)

/-- Python `needle in hay` substring test on strings. -/
def containsSubS (hay needle : String) : Bool :=
  containsSubL hay.toList needle.toList

/-- Python `s.split(',')` : split at every comma, keeping empty segments. -/
def splitComma (l : List Char) : List (List Char) :=
  match l with
  | [] => [[]]
  | c :: rest =>
    if c == ',' then [] :: splitComma rest
    else
      match splitComma rest with
      | w :: ws => (c :: w) :: ws
      | [] => [[c]]

/-- Emit the accumulated (reversed) word, if any, in front of `ws`. -/
def flushRev (cur : List Char) (ws : List (List Char)) : List (List Char) :=
  if cur.isEmpty then ws else cur.reverse :: ws

/-- Worker for `wordsL`: `cur` holds the current word reversed. -/
def wordsAux (cur : List Char) : List Char → List (List Char)
  | [] => flushRev cur []
  | c :: rest =>
    if c.isWhitespace then flushRev cur (wordsAux [] rest)
    else wordsAux (c :: cur) rest

/-- Python `s.split()` with no argument: maximal non-whitespace words, no empties. -/
def wordsL (l : List Char) : List (List Char) := wordsAux [] l

/-- Python `' '.join(ws)` : words joined by single spaces. -/
def joinSp : List (List Char) → List Char
  | [] => []
  | [w] => w
  | w :: ws => w ++ ' ' :: joinSp ws

/-- Honorific tokens removed by `clean_doctor_name` (scraper.py:631). -/
def clean_titles : List (List Char) :=
  ["dr", "dr.", "doctor", "prof", "prof.", "professor",
   "mr", "ms", "mrs", "miss"].map String.toList

/-- A word survives `clean_doctor_name` iff its lowercased,
trailing-period-stripped form is not an honorific token. -/
def keepWord (w : List Char) : Bool :=
  !(clean_titles.contains (rstripDotL (lowerL w)))

/-- Embedding of `clean_doctor_name` (scraper.py:626-639):
split on whitespace, drop honorific words, rejoin with single
spaces and strip. -/
def clean_doctor_name (s : String) : String :=
  (stripL (joinSp ((wordsL s.toList).filter keepWord))).asString

/-- Honorific tokens recognised by `extract_title` (scraper.py:645). -/
def title_titles : List (List Char) :=
  ["dr", "dr.", "doctor", "prof", "prof.", "professor"].map String.toList

/-- Word test used by `extract_title`. -/
def isTitleWord (w : List Char) : Bool :=
  title_titles.contains (rstripDotL (lowerL w))

/-- The loop of `extract_title`: first matching word, else the default. -/
def titleLoop : List (List Char) → String
  | [] => "Dr."
  | w :: ws => if isTitleWord w then w.asString else titleLoop ws

/-- Embedding of `extract_title` (scraper.py:641-652). -/
def extract_title (s : String) : String := titleLoop (wordsL s.toList)

example : clean_doctor_name "Dr. Jane Doe" = "Jane Doe" := by decide
example : clean_doctor_name "John Dr Smith" = "John Smith" := by decide
example : extract_title "Prof. Ada" = "Prof." := by decide
example : extract_title "Jane Doe" = "Dr." := by decide

/-- Python `str.title()` worker: the flag records whether the previous
character was alphabetic. -/
def pyTitleAux (prevAlpha : Bool) : List Char → List Char
  | [] => []
  | c :: rest =>
    if c.isAlpha then
      (if prevAlpha then c.toLower else c.toUpper) :: pyTitleAux true rest
    else c :: pyTitleAux false rest

/-- Python `str.title()` on a character list. -/
def pyTitleL (l : List Char) : List Char := pyTitleAux false l

/-- Fuel-driven worker for `str.replace(pat, rep)` (all occurrences,
left to right, non-overlapping).  Each step consumes at least one
character when `pat` is nonempty, so fuel = input length suffices. -/
def replaceAllAux (pat rep : List Char) : Nat → List Char → List Char
  | _, [] => []
  | 0, l => l
  | fuel + 1, c :: rest =>
    if pat.isPrefixOf (c :: rest) then
      rep ++ replaceAllAux pat rep fuel ((c :: rest).drop pat.length)
    else c :: replaceAllAux pat rep fuel rest

/-- Python `s.replace(pat, rep)` for nonempty `pat`. -/
def replaceAllL (pat rep l : List Char) : List Char :=
  replaceAllAux pat rep l.length l

/-- One attempt at matching the regex `\s+and\s+` at the head of the
list; on success returns the remainder after the match.  The character
classes of the pattern are disjoint from the literal `and`, so maximal
whitespace runs realise Python's greedy matching exactly. -/
def matchWsAnd (l : List Char) : Option (List Char) :=
  let ws1 := l.takeWhile isWsChar
  if ws1.isEmpty then none
  else
    let r1 := l.dropWhile isWsChar
    if ['a', 'n', 'd'].isPrefixOf r1 then
      let r2 := r1.drop 3
      if (r2.takeWhile isWsChar).isEmpty then none
      else some (r2.dropWhile isWsChar)
    else none

/-- Fuel-driven worker for `re.sub(r'\s+and\s+', ', ', s)`: a successful
match consumes at least five characters, a failure moves one character
right, so fuel = input length suffices. -/
def subWsAndAux : Nat → List Char → List Char
  | _, [] => []
  | 0, l => l
  | fuel + 1, c :: rest =>
    match matchWsAnd (c :: rest) with
    | some r => ',' :: ' ' :: subWsAndAux fuel r
    | none => c :: subWsAndAux fuel rest

/-- Embedding of `re.sub(r'\s+and\s+', ', ', s)` (scraper.py:501). -/
def subWsAnd (l : List Char) : List Char := subWsAndAux l.length l

example : (subWsAnd "english and mandarin".toList).asString = "english, mandarin" := by decide
example : (replaceAllL "speaks".toList [] "speaks english".toList).asString = " english" := by decide
example : (pyTitleL "english".toList).asString = "English" := by decide

/-- A candidate doctor element, abstracted as BeautifulSoup oracles: for
each CSS selector string, `selectOne` returns the stripped text
(`get_text(strip=True)`) of the first matching sub-element, if any;
`paragraphs` lists the stripped texts of the elements returned by
`select('p')` in document order.  Profile-URL, bio, interests, rating and
review-count extraction of `extract_single_doctor_info` read further
sub-elements that no claim concerns; they are not modelled. -/
structure DoctorElem where
  selectOne : String → Option String
  paragraphs : List String

/-- The record assembled by `extract_single_doctor_info` (scraper.py:417-434),
restricted to the fields the claims concern.  `none` stands for Python
`None`. -/
structure DoctorInfo where
  name : Option String
  title : Option String
  specialties : List String
  qualifications : List String
  languages : List String
  gender : Option String
deriving DecidableEq, Repr

/-- The ordered name selectors of `extract_single_doctor_info`
(scraper.py:438-448). -/
def name_selectors : List String :=
  [".DoctorAvailabilityRow-doctorLink", ".DoctorAvailabilityRow-profileTitle a",
   "h2 a", ".doctor-name", ".practitioner-name", ".provider-name",
   "h3", "h4", "h5", ".name", "[data-testid=\"doctor-name\"]"]

/-- The name loop of `extract_single_doctor_info` (scraper.py:450-462):
text of the first selector returning an element. -/
def firstNameText (e : DoctorElem) : List String → Option String
  | [] => none
  | sel :: rest =>
    match e.selectOne sel with
    | some t => some t
    | none => firstNameText e rest

/-- Embeds `part_lower in ['male', 'female']` (scraper.py:477). -/
def isGenderTok (part : String) : Bool :=
  (lowerL part.toList == "male".toList) || (lowerL part.toList == "female".toList)

/-- Embeds `any(spec in part_lower for spec in [...])` (scraper.py:481). -/
def isSpecTok (part : String) : Bool :=
  ["practitioner", "specialist", "surgeon", "consultant"].any
    (fun k => containsSubL (lowerL part.toList) k.toList)

/-- Embeds `re.match(r'^[A-Z]{2,}', part)` : at least two ASCII uppercase
letters at the start. -/
def startsTwoUpper (part : String) : Bool :=
  match part.toList with
  | a :: b :: _ => a.isUpper && b.isUpper
  | _ => false

/-- Embeds `re.match(r'^[A-Z]{2,}', part) or any(qual in part.upper() for ...)`
(scraper.py:486). -/
def isQualTok (part : String) : Bool :=
  startsTwoUpper part ||
    ["MBBS", "MD", "FRACGP", "FRACS", "PHD", "BMBS"].any
      (fun k => containsSubL (upperL part.toList) k.toList)

/-- Embeds `if part not in xs: xs.append(part)` (scraper.py:482-488). -/
def appendIfNew (xs : List String) (part : String) : List String :=
  if part ∈ xs then xs else xs ++ [part]

/-- One iteration of the comma-token classification loop of
`extract_single_doctor_info` (scraper.py:473-488), acting on the state
(gender, specialties, qualifications). -/
def classifyStep (acc : Option String × List String × List String) (part : String) :
    Option String × List String × List String :=
  if isGenderTok part then (some part, acc.2.1, acc.2.2)
  else if isSpecTok part then (acc.1, appendIfNew acc.2.1 part, acc.2.2)
  else if isQualTok part then (acc.1, acc.2.1, appendIfNew acc.2.2 part)
  else acc

/-- Embeds `[part.strip() for part in text.split(',')]` (scraper.py:471). -/
def partsOf (t : String) : List String :=
  (splitComma t.toList).map (fun l => (stripL l).asString)

/-- The whole classification of one qualifications line. -/
def classifyParts (parts : List String) : Option String × List String × List String :=
  parts.foldl classifyStep (none, [], [])

/-- The guard of the qualifications-paragraph loop (scraper.py:467-469):
first paragraph with truthy text containing one of the keywords. -/
def qualsParagraph (e : DoctorElem) : Option String :=
  e.paragraphs.find? (fun t =>
    (!(t == "")) && ["practitioner", "doctor", "specialist"].any
      (fun k => containsSubL (lowerL t.toList) k.toList))

/-- The guard of the languages loop (scraper.py:493-495): first
paragraph whose lowercased text contains `speaks` or `languages`. -/
def langParagraph (e : DoctorElem) : Option String :=
  e.paragraphs.find? (fun t =>
    containsSubL (lowerL t.toList) "speaks".toList ||
      containsSubL (lowerL t.toList) "languages".toList)

/-- The `speaks` branch of the languages loop (scraper.py:498-503):
lowercase, delete `speaks`, strip, normalise ` and ` to a comma, split
on commas, then strip-and-titlecase the nonempty tokens. -/
def parseLangs (t : String) : List String :=
  let langs := stripL (replaceAllL "speaks".toList [] (lowerL t.toList))
  let langs2 := subWsAnd langs
  (splitComma langs2).filterMap (fun l =>
    let ls := stripL l
    if ls.isEmpty then none else some ((pyTitleL ls).asString))

/-- Embedding of `extract_single_doctor_info` (scraper.py:413-542) on
the modelled fields.  `clinic_info` is carried through unchanged by the
source and does not influence any modelled field, so it is omitted. -/
def extract_single_doctor_info (e : DoctorElem) : DoctorInfo :=
  let nt := firstNameText e name_selectors
  let gsq :=
    match qualsParagraph e with
    | some t => classifyParts (partsOf t)
    | none => (none, [], [])
  let langs :=
    match langParagraph e with
    | some t =>
      if containsSubL (lowerL t.toList) "speaks".toList then parseLangs t else []
    | none => []
  { name := nt.map (fun t => clean_doctor_name t)
    title := nt.map (fun t => extract_title t)
    specialties := gsq.2.1
    qualifications := gsq.2.2
    languages := langs
    gender := gsq.1 }

example :
    (extract_single_doctor_info
      ⟨fun _ => none, ["General Practitioner, Female, FRACGP, MBBS"]⟩).gender
      = some "Female" := by decide
example :
    (extract_single_doctor_info
      ⟨fun _ => none, ["Speaks English and Mandarin"]⟩).languages
      = ["English", "Mandarin"] := by decide

/-- One ancestor on the parent chain of a link: whether its `class`
attribute is truthy, and the element itself (as candidate element). -/
structure Ancestor where
  hasClass : Bool
  elem : DoctorElem

/-- One `<a href=...>` tag found by `soup.find_all('a', href=True)`:
its `href` and its parent chain, nearest ancestor first (the chain ends
where `parent` becomes `None`). -/
structure PageLink where
  href : String
  ancestors : List Ancestor

/-- A parsed page, abstracted as BeautifulSoup oracles: `select` returns
the elements matched by a CSS selector string in document order, and
`links` lists all anchor tags with an `href`. -/
structure Soup where
  select : String → List DoctorElem
  links : List PageLink

/-- The ordered doctor selectors of `extract_doctor_info`
(scraper.py:369-378). -/
def doctor_selectors : List String :=
  [".DoctorAvailabilityRow", ".doctor-card", ".practitioner-card",
   ".provider-card", ".doctor-profile", "[data-testid=\"doctor-card\"]",
   ".practitioner-list .practitioner", ".doctor-item"]

/-- The selector loop of `extract_doctor_info` (scraper.py:380-386):
elements of the first selector with a non-empty match. -/
def selectCascade (soup : Soup) : List String → List DoctorElem
  | [] => []
  | sel :: rest =>
    if (soup.select sel).isEmpty then selectCascade soup rest
    else soup.select sel

/-- The parent walk of the link fallback (scraper.py:394-399): nearest
ancestor whose `class` attribute is truthy, if any. -/
def ancestorWithClass : List Ancestor → Option DoctorElem
  | [] => none
  | a :: rest => if a.hasClass then some a.elem else ancestorWithClass rest

/-- The link-pattern fallback of `extract_doctor_info`
(scraper.py:388-399): for each link whose `href` contains both
`/doctors/` and `/medical-centres/`, append the nearest classed
ancestor as candidate element. -/
def linkFallback (soup : Soup) : List DoctorElem :=
  soup.links.foldl (fun acc link =>
    if containsSubS link.href "/doctors/" && containsSubS link.href "/medical-centres/" then
      match ancestorWithClass link.ancestors with
      | some e => acc ++ [e]
      | none => acc
    else acc) []

/-- The candidate-element set used by `extract_doctor_info`: cascade
result, or the link fallback when every selector matched nothing. -/
def doctorCandidates (soup : Soup) : List DoctorElem :=
  if (selectCascade soup doctor_selectors).isEmpty then linkFallback soup
  else selectCascade soup doctor_selectors

/-- Embeds the `doctor_info.get('name')` truthiness test (scraper.py:403). -/
def truthyName : Option String → Bool
  | none => false
  | some s => !(s == "")

/-- Embedding of `extract_doctor_info` (scraper.py:361-411): per-element
extraction over the candidate set, keeping only records with a truthy
name. -/
def extract_doctor_info (soup : Soup) : List DoctorInfo :=
  ((doctorCandidates soup).map extract_single_doctor_info).filter
    (fun d => truthyName d.name)

/-- Embedding of the retry loop of `get_page` (scraper.py:67-88):
`fetch i` is the outcome of attempt `i` (a `RequestException` becomes
`none`).  The first argument counts the attempts still allowed, the
second is the index of the next attempt. -/
def getPageAux (fetch : Nat → Option α) : Nat → Nat → Option α
  | 0, _ => none
  | n + 1, i =>
    match fetch i with
    | some p => some p
    | none => getPageAux fetch n (i + 1)

/-- Embedding of `get_page` (scraper.py:67-88): try up to `max_retries`
attempts, return the first parsed page, `none` on exhaustion.  The
randomized sleeps and log lines of the source have no bearing on the
returned value and are not modelled. -/
def get_page (fetch : Nat → Option α) (max_retries : Nat) : Option α :=
  getPageAux fetch max_retries 0

/-- Python default of the `max_retries` parameter of `get_page`. -/
def max_retries_default : Nat := 3

/-- The rating-statistics part of the record built by `get_statistics`
(scraper.py:879-920). -/
structure ScrapeStats where
  doctors_with_ratings : Nat
  average_rating : ℚ
deriving DecidableEq, Repr

/-- Embeds `if doctor.get('rating'):` — a rating is counted iff present and
nonzero (Python float truthiness). -/
def truthyRating : Option ℚ → Bool
  | none => false
  | some x => !(x == 0)

/-- The ratings accumulated by the loop of `get_statistics`
(scraper.py:898-911): each record with a truthy rating appends it. -/
def ratingsList (data : List (Option ℚ)) : List ℚ :=
  data.foldl (fun acc r =>
    match r with
    | some x => if !(x == 0) then acc ++ [x] else acc
    | none => acc) []

/-- Embedding of the rating statistics of `get_statistics`
(scraper.py:879-920) over the `rating` fields of the scraped records:
`none` when the data is empty (the source returns `{}`), otherwise the
count of truthy ratings and their mean (0 when no truthy rating).  The
state/specialty/bio tallies of the source do not interact with these
fields and are not modelled. -/
def get_statistics (data : List (Option ℚ)) : Option ScrapeStats :=
  if data.isEmpty then none
  else
    some { doctors_with_ratings := (ratingsList data).length
           average_rating :=
             if (ratingsList data).isEmpty then 0
             else (ratingsList data).sum / ((ratingsList data).length : ℚ) }

example :
    (get_statistics [some 4, some 0, none, some 5]).map
      (fun st => st.doctors_with_ratings) = some 2 := by decide

/-- Generic `re.search` scaffold: try the position matcher at every
start position, leftmost first. -/
def scanSearch (f : List Char → Option α) : List Char → Option α
  | [] => f []
  | c :: rest =>
    match f (c :: rest) with
    | some a => some a
    | none => scanSearch f rest

/-- Tail `([A-Z]{2,3})\s*(\d{4})` of the meta-description regex, with
the uppercase group forced to length `k` (greedy tries 3 then 2). -/
def metaTail (k : Nat) (l : List Char) : Option (String × String) :=
  let g2 := l.take k
  if g2.length == k && g2.all Char.isUpper then
    let r := (l.drop k).dropWhile isWsChar
    let g3 := r.take 4
    if g3.length == 4 && g3.all Char.isDigit then some (g2.asString, g3.asString)
    else none
  else none

/-- Position matcher for `([A-Za-z\s]+),\s*([A-Z]{2,3})\s*(\d{4})`
(scraper.py:249).  The comma is outside the first character class, so
the greedy first group is exactly the maximal class run, and the
disjoint classes make maximal runs realise greedy matching. -/
def metaMatchAt (l : List Char) : Option (String × String × String) :=
  let g1 := l.takeWhile (fun c => c.isAlpha || c.isWhitespace)
  if g1.isEmpty then none
  else
    match l.drop g1.length with
    | ',' :: rest =>
      let r := rest.dropWhile isWsChar
      match metaTail 3 r with
      | some (st, pc) => some (g1.asString, st, pc)
      | none =>
        match metaTail 2 r with
        | some (st, pc) => some (g1.asString, st, pc)
        | none => none
    | _ => none

/-- Embeds `re.search(r'([A-Za-z\s]+),\s*([A-Z]{2,3})\s*(\d{4})', s)`. -/
def metaSearch (l : List Char) : Option (String × String × String) :=
  scanSearch metaMatchAt l

/-- Position matcher for `/medical-centres/([^/]+)/([^/]+)`
(scraper.py:259): the literal, then two nonempty slash-free groups. -/
def urlMatchAt (l : List Char) : Option (String × String) :=
  let lit := "/medical-centres/".toList
  if lit.isPrefixOf l then
    let r := l.drop lit.length
    let g1 := r.takeWhile (fun c => !(c == '/'))
    if g1.isEmpty then none
    else
      match r.drop g1.length with
      | '/' :: r2 =>
        let g2 := r2.takeWhile (fun c => !(c == '/'))
        if g2.isEmpty then none else some (g1.asString, g2.asString)
      | _ => none
  else none

/-- Embeds `re.search(r'/medical-centres/([^/]+)/([^/]+)', url)`. -/
def urlSearch (l : List Char) : Option (String × String) :=
  scanSearch urlMatchAt l

/-- Tail `([A-Z]{2,3})-(\d{4})` of the location regex, with the
uppercase group forced to length `k` (greedy tries 3 then 2). -/
def locTail (k : Nat) (l : List Char) : Option (String × String) :=
  let g2 := l.take k
  if g2.length == k && g2.all Char.isUpper then
    match l.drop k with
    | '-' :: r =>
      let g3 := r.take 4
      if g3.length == 4 && g3.all Char.isDigit then some (g2.asString, g3.asString)
      else none
    | _ => none
  else none

/-- Position matcher for `([^-]+)-([A-Z]{2,3})-(\d{4})`
(scraper.py:263): the hyphen is outside the first class, so the greedy
first group is the maximal hyphen-free run. -/
def locMatchAt (l : List Char) : Option (String × String × String) :=
  let g1 := l.takeWhile (fun c => !(c == '-'))
  if g1.isEmpty then none
  else
    match l.drop g1.length with
    | '-' :: r =>
      match locTail 3 r with
      | some (st, pc) => some (g1.asString, st, pc)
      | none =>
        match locTail 2 r with
        | some (st, pc) => some (g1.asString, st, pc)
        | none => none
    | _ => none

/-- Embeds `re.search(r'([^-]+)-([A-Z]{2,3})-(\d{4})', location_part)`. -/
def locSearch (l : List Char) : Option (String × String × String) :=
  scanSearch locMatchAt l

/-- Embeds `location_match.group(1).replace('_', ' ')` (scraper.py:265). -/
def underscoreSpace (l : List Char) : List Char :=
  l.map (fun c => if c == '_' then ' ' else c)

/-- The URL branch of `extract_clinic_info` (scraper.py:257-268):
suburb, state, postcode parsed from the URL path, with the suburb
underscore-normalised and title-cased. -/
def urlDerivedAddress (url : String) : Option (String × String × String) :=
  match urlSearch url.toList with
  | none => none
  | some (locPart, _) =>
    match locSearch locPart.toList with
    | none => none
    | some (su, st, pc) =>
      some ((pyTitleL (underscoreSpace su.toList)).asString, st, pc)

/-- A clinic page, abstracted as BeautifulSoup oracles: the `content`
of the `description` meta tag (if the tag exists), and for each CSS
selector the stripped text of the first matching element, if any. -/
structure ClinicDoc where
  metaDescription : Option String
  selectOneText : String → Option String

/-- The address-related fields of the `clinic_info` dict
(scraper.py:198-213). -/
structure ClinicAddress where
  address : Option String
  suburb : Option String
  state : Option String
  postcode : Option String
deriving DecidableEq, Repr

/-- The ordered structured-address selectors of `extract_clinic_info`
(scraper.py:271-278). -/
def address_selectors : List String :=
  [".clinic-address", "[data-testid=\"clinic-address\"]", ".address-block",
   ".location-info .address", ".ClinicPage-Address", ".contact-address"]

/-- The structured-address loop (scraper.py:280-295) stops at the first
selector whose `select_one` finds an element; this returns its text. -/
def firstSelectOneText (doc : ClinicDoc) : List String → Option String
  | [] => none
  | sel :: rest =>
    match doc.selectOneText sel with
    | some t => some t
    | none => firstSelectOneText doc rest

/-- Truthiness of `clinic_info['address']` (`None` and `''` falsy). -/
def truthyOpt : Option String → Bool
  | none => false
  | some s => !(s == "")

/-- The meta-description step (scraper.py:245-254): address fields from
the regex over the `description` meta content, or all-`None`. -/
def metaStep (doc : ClinicDoc) : ClinicAddress :=
  match doc.metaDescription with
  | none => ⟨none, none, none, none⟩
  | some desc =>
    match metaSearch desc.toList with
    | none => ⟨none, none, none, none⟩
    | some (su, st, pc) =>
      ⟨some (pyStrip su ++ ", " ++ pyStrip st ++ " " ++ pyStrip pc),
       some (pyStrip su), some (pyStrip st), some (pyStrip pc)⟩

/-- The URL step (scraper.py:257-268): runs only when no address was
derived yet. -/
def urlStep (s1 : ClinicAddress) (url : String) : ClinicAddress :=
  if truthyOpt s1.address then s1
  else
    match urlDerivedAddress url with
    | some (su, st, pc) =>
      ⟨some (su ++ ", " ++ st ++ " " ++ pc), some su, some st, some pc⟩
    | none => s1

/-- The structured-address step (scraper.py:280-295): the first found
address element's text replaces the address only when strictly longer
than the current one; suburb (and state/postcode) are re-parsed from it
only when it splits into enough comma segments.  When the element's
text is nonempty but no address was derived yet, the source evaluates
`len(None)` and the `TypeError` aborts the enclosing `try`, leaving the
address fields as they stand (the code after this portion never touches
them) — embedded by returning the current state. -/
def structuredStep (doc : ClinicDoc) (s2 : ClinicAddress) : ClinicAddress :=
  match firstSelectOneText doc address_selectors with
  | none => s2
  | some t =>
    if t == "" then s2
    else
      match s2.address with
      | none => s2
      | some a =>
        if a.length < t.length then
          let parts := (splitComma t.toList).map List.asString
          if 3 ≤ parts.length then
            let suburb2 := pyStrip (parts.getD (parts.length - 3) "")
            let sp := wordsL (stripL (parts.getD (parts.length - 2) "").toList)
            if 2 ≤ sp.length then
              ⟨some t, some suburb2, some ((sp.getD 0 []).asString),
               some ((sp.getD 1 []).asString)⟩
            else ⟨some t, some suburb2, s2.state, s2.postcode⟩
          else ⟨some t, s2.suburb, s2.state, s2.postcode⟩
        else s2

/-- Embedding of the address portion of `extract_clinic_info`
(scraper.py:243-295): meta description first, then URL parse (only if
no address yet), then the structured address element. -/
def extract_clinic_info_address (doc : ClinicDoc) (url : String) : ClinicAddress :=
  structuredStep doc (urlStep (metaStep doc) url)

example : urlDerivedAddress "/medical-centres/armadale-VIC-3143/x/doctors"
    = some ("Armadale", "VIC", "3143") := by decide
example : metaSearch "Book at Armadale, VIC 3143 today".toList
    = some ("Book at Armadale", "VIC", "3143") := by decide

/-! ### Words / join / strip lemmas -/

/-- A word produced by whitespace splitting: nonempty and
whitespace-free. -/
def goodWord (w : List Char) : Prop :=
  w ≠ [] ∧ ∀ c ∈ w, c.isWhitespace = false

theorem wordsAux_word (w : List Char) (hw : ∀ c ∈ w, c.isWhitespace = false) :
    ∀ cur l, wordsAux cur (w ++ l) = wordsAux (w.reverse ++ cur) l := by
  induction w with
  | nil => intro cur l; simp
  | cons c w ih =>
    intro cur l
    have hc : c.isWhitespace = false := hw c (by simp)
    have hw' : ∀ d ∈ w, d.isWhitespace = false := fun d hd => hw d (by simp [hd])
    simp only [List.cons_append, wordsAux, hc, Bool.false_eq_true, if_false,
      List.reverse_cons, List.append_assoc, List.singleton_append]
    exact ih hw' (c :: cur) l

theorem mem_wordsAux :
    ∀ (l cur : List Char), (∀ c ∈ cur, c.isWhitespace = false) →
      ∀ w ∈ wordsAux cur l, goodWord w := by
  intro l
  induction l with
  | nil =>
    intro cur hcur w hwinl
    simp only [wordsAux, flushRev] at hwinl
    by_cases hc : cur.isEmpty
    · simp [hc] at hwinl
    · simp [hc] at hwinl
      subst hwinl
      refine ⟨by simpa [List.reverse_eq_nil_iff] using (by simpa using hc), ?_⟩
      intro c hcmem
      exact hcur c (List.mem_reverse.mp hcmem)
  | cons c rest ih =>
    intro cur hcur w hwinl
    by_cases hws : c.isWhitespace
    · simp only [wordsAux, hws, if_true, flushRev] at hwinl
      by_cases hc : cur.isEmpty
      · simp only [hc, if_true] at hwinl
        exact ih [] (by simp) w hwinl
      · simp only [hc, Bool.false_eq_true, if_false, List.mem_cons] at hwinl
        rcases hwinl with h | h
        · subst h
          refine ⟨by simpa [List.reverse_eq_nil_iff] using (by simpa using hc), ?_⟩
          intro d hd
          exact hcur d (List.mem_reverse.mp hd)
        · exact ih [] (by simp) w h
    · have hws' : c.isWhitespace = false := by simpa using hws
      simp only [wordsAux, hws', Bool.false_eq_true, if_false] at hwinl
      refine ih (c :: cur) ?_ w hwinl
      intro d hd
      rcases List.mem_cons.mp hd with h | h
      · subst h; exact hws'
      · exact hcur d h

theorem mem_wordsL (l : List Char) : ∀ w ∈ wordsL l, goodWord w :=
  mem_wordsAux l [] (by simp)

theorem joinSp_cons (w : List Char) (ws : List (List Char)) :
    ∃ r, joinSp (w :: ws) = w ++ r := by
  cases ws with
  | nil => exact ⟨[], by simp [joinSp]⟩
  | cons w2 ws2 => exact ⟨' ' :: joinSp (w2 :: ws2), rfl⟩

theorem joinSp_last (ws : List (List Char)) (hws : ∀ w ∈ ws, goodWord w)
    (hne : ws ≠ []) : ∃ r c, joinSp ws = r ++ [c] ∧ c.isWhitespace = false := by
  induction ws with
  | nil => exact absurd rfl hne
  | cons w ws ih =>
    cases ws with
    | nil =>
      obtain ⟨hwne, hwc⟩ := hws w (by simp)
      rcases List.eq_nil_or_concat w with h | ⟨r, c, hcr⟩
      · exact absurd h hwne
      · refine ⟨r, c, by simpa [joinSp] using hcr, ?_⟩
        exact hwc c (by simp [hcr])
    | cons w2 ws2 =>
      obtain ⟨r, c, hjr, hc⟩ := ih (fun u hu => hws u (by simp [hu])) (by simp)
      exact ⟨w ++ ' ' :: r, c, by simp [joinSp, hjr], hc⟩

theorem wordsL_joinSp (ws : List (List Char)) (hws : ∀ w ∈ ws, goodWord w) :
    wordsL (joinSp ws) = ws := by
  induction ws with
  | nil => rfl
  | cons w ws ih =>
    obtain ⟨hwne, hwc⟩ := hws w (by simp)
    cases ws with
    | nil =>
      show wordsAux [] (joinSp [w]) = [w]
      have h1 : joinSp [w] = w ++ [] := by simp [joinSp]
      rw [h1, wordsAux_word w hwc [] []]
      simp [wordsAux, flushRev, hwne]
    | cons w2 ws2 =>
      show wordsAux [] (joinSp (w :: w2 :: ws2)) = w :: w2 :: ws2
      have h1 : joinSp (w :: w2 :: ws2) = w ++ ' ' :: joinSp (w2 :: ws2) := rfl
      rw [h1, wordsAux_word w hwc [] (' ' :: joinSp (w2 :: ws2))]
      have hsp : (' ' : Char).isWhitespace = true := by decide
      simp only [wordsAux, hsp, if_true, flushRev, List.append_nil]
      have hrne : w.reverse.isEmpty = false := by
        simpa [List.isEmpty_iff, List.reverse_eq_nil_iff] using hwne
      rw [hrne]
      simp only [Bool.false_eq_true, if_false, List.reverse_reverse]
      congr 1
      exact ih (fun u hu => hws u (by simp [hu]))

theorem dropWhile_head_false {p : Char → Bool} :
    ∀ l : List Char, (∀ c r, l = c :: r → p c = false) → l.dropWhile p = l := by
  intro l h
  cases l with
  | nil => rfl
  | cons c r => simp [List.dropWhile_cons, h c r rfl]

theorem stripL_joinSp (ws : List (List Char)) (hws : ∀ w ∈ ws, goodWord w) :
    stripL (joinSp ws) = joinSp ws := by
  cases hne : ws with
  | nil => rfl
  | cons w ws2 =>
    subst hne
    obtain ⟨hwne, hwc⟩ := hws w (by simp)
    have hdrop : (joinSp (w :: ws2)).dropWhile isWsChar = joinSp (w :: ws2) := by
      apply dropWhile_head_false
      intro c r hcr
      obtain ⟨t, ht⟩ := joinSp_cons w ws2
      cases hw : w with
      | nil => exact absurd hw hwne
      | cons c0 w0 =>
        have h2 : c0 = c := by
          rw [ht, hw] at hcr
          simpa using congrArg (fun l => l.headD ' ') hcr
        subst h2
        simpa [isWsChar] using hwc c0 (by simp [hw])
    obtain ⟨r, c, hjr, hc⟩ := joinSp_last (w :: ws2) hws (by simp)
    have hrev : (joinSp (w :: ws2)).reverse = c :: r.reverse := by
      rw [hjr]; simp
    have hdrop2 : (joinSp (w :: ws2)).reverse.dropWhile isWsChar
        = (joinSp (w :: ws2)).reverse := by
      apply dropWhile_head_false
      intro d t hdt
      rw [hrev] at hdt
      have h2 : c = d := by simpa using congrArg (fun l => l.headD ' ') hdt
      subst h2
      simpa [isWsChar] using hc
    unfold stripL
    rw [hdrop, hdrop2, List.reverse_reverse]

theorem toList_asString (l : List Char) : (List.asString l).toList = l := rfl

/-- C8: `clean_doctor_name` is idempotent — cleaning an already-cleaned
name returns it unchanged, for every input string. -/
theorem clean_doctor_name_idempotent (s : String) :
    clean_doctor_name (clean_doctor_name s) = clean_doctor_name s := by
  have hgood : ∀ w ∈ (wordsL s.toList).filter keepWord, goodWord w :=
    fun w hw => mem_wordsL s.toList w (List.mem_of_mem_filter hw)
  have hstrip := stripL_joinSp _ hgood
  have hclean : clean_doctor_name s
      = (joinSp ((wordsL s.toList).filter keepWord)).asString := by
    unfold clean_doctor_name
    rw [hstrip]
  have htl : (clean_doctor_name s).toList
      = joinSp ((wordsL s.toList).filter keepWord) := by
    rw [hclean, toList_asString]
  have hwords : wordsL (clean_doctor_name s).toList
      = (wordsL s.toList).filter keepWord := by
    rw [htl]
    exact wordsL_joinSp _ hgood
  have hfilter : ((wordsL s.toList).filter keepWord).filter keepWord
      = (wordsL s.toList).filter keepWord :=
    List.filter_eq_self.mpr (fun w hw => List.of_mem_filter hw)
  have hdef : clean_doctor_name (clean_doctor_name s)
      = (stripL (joinSp
          ((wordsL (clean_doctor_name s).toList).filter keepWord))).asString := rfl
  rw [hdef, hwords, hfilter, hstrip, ← hclean]

theorem wordsL_clean_doctor_name (s : String) :
    wordsL (clean_doctor_name s).toList = (wordsL s.toList).filter keepWord := by
  have hgood : ∀ w ∈ (wordsL s.toList).filter keepWord, goodWord w :=
    fun w hw => mem_wordsL s.toList w (List.mem_of_mem_filter hw)
  have hstrip := stripL_joinSp _ hgood
  have htl : (clean_doctor_name s).toList
      = joinSp ((wordsL s.toList).filter keepWord) := by
    unfold clean_doctor_name
    rw [hstrip, toList_asString]
  rw [htl]
  exact wordsL_joinSp _ hgood

theorem titleLoop_eq_find (ws : List (List Char)) :
    titleLoop ws = (((ws.find? isTitleWord).map List.asString).getD "Dr.") := by
  induction ws with
  | nil => rfl
  | cons w ws ih =>
    by_cases h : isTitleWord w
    · simp [titleLoop, h, List.find?_cons_of_pos]
    · simp [titleLoop, h, List.find?_cons_of_neg, ih]

/-- C4 counterexample: `clean_doctor_name` removes honorific tokens
everywhere in the name, not only from the front — `"John Dr Smith"`
loses its middle `"Dr"` — and `extract_title` does not return the
removed honorific for the removed token `"Mr"` (it is not in
`extract_title`'s shorter title list), falling back to `"Dr."`. -/
theorem clean_doctor_name_front_only_cex :
    clean_doctor_name "John Dr Smith" = "John Smith"
  ∧ ("John Smith" : String) ≠ "John Dr Smith"
  ∧ clean_doctor_name "Mr John" = "John"
  ∧ extract_title "Mr John" = "Dr." := by decide

/-- C4 amended: `clean_doctor_name` removes every word whose
lowercased, trailing-period-stripped form is an honorific token,
wherever it occurs — the cleaned name's words are exactly the
non-honorific words of the input, in order — and `extract_title`
returns the first word (anywhere) whose normalised form is in its own
title set `{dr, doctor, prof, professor}`, or the fixed default `"Dr."`
when no such word occurs. -/
theorem clean_doctor_name_filter_characterization (s : String) :
    wordsL (clean_doctor_name s).toList = (wordsL s.toList).filter keepWord
  ∧ extract_title s
      = (((wordsL s.toList).find? isTitleWord).map List.asString).getD "Dr." :=
  ⟨wordsL_clean_doctor_name s, titleLoop_eq_find (wordsL s.toList)⟩

/-! ### Gender / specialty / qualification classification lemmas -/

/-- The effect of one classification step on the gender component alone. -/
def genderStep (g : Option String) (p : String) : Option String :=
  if isGenderTok p then some p else g

theorem classifyStep_fst (acc : Option String × List String × List String)
    (p : String) : (classifyStep acc p).1 = genderStep acc.1 p := by
  unfold classifyStep genderStep
  by_cases h1 : isGenderTok p
  · simp [h1]
  · by_cases h2 : isSpecTok p
    · simp [h1, h2]
    · by_cases h3 : isQualTok p <;> simp [h1, h2, h3]

theorem classifyParts_gender :
    ∀ (parts : List String) (g : Option String) (sq : List String × List String),
      (parts.foldl classifyStep (g, sq)).1 = parts.foldl genderStep g := by
  intro parts
  induction parts with
  | nil => intro g sq; rfl
  | cons p parts ih =>
    intro g sq
    rcases hcs : classifyStep (g, sq) p with ⟨g2, sq2⟩
    have hfst := classifyStep_fst (g, sq) p
    rw [hcs] at hfst
    have hg2 : g2 = genderStep g p := hfst
    rw [List.foldl_cons, hcs, List.foldl_cons, ih g2 sq2, hg2]

theorem foldl_genderStep_last (parts : List String) :
    ∀ g, parts.foldl genderStep g
      = ((parts.filter isGenderTok).getLast?).elim g some := by
  induction parts using List.reverseRecOn with
  | nil => intro g; rfl
  | append_singleton l p ih =>
    intro g
    rw [List.foldl_append, List.foldl_cons, List.foldl_nil, List.filter_append]
    by_cases h : isGenderTok p
    · rw [show List.filter isGenderTok [p] = [p] from by simp [h],
        List.getLast?_concat]
      simp [genderStep, h]
    · rw [show List.filter isGenderTok [p] = [] from by simp [h], List.append_nil]
      simp [genderStep, h, ih g]

/-- C5 counterexample: in the line
`"General Practitioner, Female, Male, MBBS"` the gender tokens
`Female` then `Male` both assign the gender field, so the extracted
gender is the last token `"Male"`, not the first `"Female"` as claimed. -/
theorem gender_first_match_cex :
    (extract_single_doctor_info
        ⟨fun _ => none, ["General Practitioner, Female, Male, MBBS"]⟩).gender
      = some "Male"
  ∧ some "Male" ≠ (some "Female" : Option String) := by decide

/-- C5 amended: a comma-split token exactly equal to `male`/`female`
(case-insensitive) sets the gender field, and when several such tokens
occur in one line the last match wins — each later gender token
overwrites the earlier value, so the extracted gender is the last
gender token of the line. -/
theorem gender_last_match_wins (e : DoctorElem) (t : String)
    (h : qualsParagraph e = some t) :
    (extract_single_doctor_info e).gender
      = ((partsOf t).filter isGenderTok).getLast? := by
  have hdef : (extract_single_doctor_info e).gender
      = (match qualsParagraph e with
         | some u => classifyParts (partsOf u)
         | none => (none, [], [])).1 := rfl
  rw [hdef, h]
  show (classifyParts (partsOf t)).1 = _
  unfold classifyParts
  rw [classifyParts_gender (partsOf t) none ([], []),
    foldl_genderStep_last (partsOf t) none]
  cases ((partsOf t).filter isGenderTok).getLast? <;> rfl

/-- C5 witness: a concrete element whose qualifications line carries two
gender tokens, evaluated through the amended theorem. -/
theorem gender_last_match_wins_witness :
    (extract_single_doctor_info
        ⟨fun _ => none, ["General Practitioner, Female, Male"]⟩).gender
      = some "Male" := by
  have h := gender_last_match_wins
    ⟨fun _ => none, ["General Practitioner, Female, Male"]⟩
    "General Practitioner, Female, Male" (by decide)
  rw [h]
  decide

/-- C6: the worked example of the spec — the qualifications line
`"General Practitioner, Female, FRACGP, MBBS"` yields exactly one
specialty, two qualifications and gender `Female`. -/
theorem quals_line_example_extraction :
    (extract_single_doctor_info
        ⟨fun _ => none, ["General Practitioner, Female, FRACGP, MBBS"]⟩).specialties
      = ["General Practitioner"]
  ∧ (extract_single_doctor_info
        ⟨fun _ => none, ["General Practitioner, Female, FRACGP, MBBS"]⟩).qualifications
      = ["FRACGP", "MBBS"]
  ∧ (extract_single_doctor_info
        ⟨fun _ => none, ["General Practitioner, Female, FRACGP, MBBS"]⟩).gender
      = some "Female" := by decide

/-- Order-preserving de-duplication keeping the first occurrence of
each entry: the head is kept at its (first) position and all its later
occurrences are filtered out of the de-duplicated tail. -/
def dedupFirst : List String → List String
  | [] => []
  | p :: ps => p :: (dedupFirst ps).filter (fun q => !(q == p))

/-- A comma token is appended to the specialties list iff it is not a
gender token and contains a specialty keyword (the branch order of
scraper.py:477-483). -/
def specBranch (p : String) : Bool := !(isGenderTok p) && isSpecTok p

/-- A comma token is appended to the qualifications list iff it reaches
the third branch of scraper.py:477-488 and matches it. -/
def qualBranch (p : String) : Bool :=
  !(isGenderTok p) && !(isSpecTok p) && isQualTok p

/-- The stream of tokens of the chosen qualifications line that the
classifier sends to the specialties list, in line order. -/
def classifiedSpecTokens (e : DoctorElem) : List String :=
  match qualsParagraph e with
  | some t => (partsOf t).filter specBranch
  | none => []

/-- The stream of tokens of the chosen qualifications line that the
classifier sends to the qualifications list, in line order. -/
def classifiedQualTokens (e : DoctorElem) : List String :=
  match qualsParagraph e with
  | some t => (partsOf t).filter qualBranch
  | none => []

theorem dedupFirst_filter (q : String → Bool) :
    ∀ l : List String, dedupFirst (l.filter q) = (dedupFirst l).filter q := by
  intro l
  induction l with
  | nil => rfl
  | cons x xs ih =>
    by_cases hx : q x
    · rw [List.filter_cons, if_pos hx]
      show x :: (dedupFirst (xs.filter q)).filter (fun y => !(y == x))
          = (x :: (dedupFirst xs).filter (fun y => !(y == x))).filter q
      rw [List.filter_cons, if_pos hx, ih, List.filter_filter, List.filter_filter]
      congr 1
      apply List.filter_congr
      intro y _
      cases hyq : q y <;> cases hyx : (y == x) <;> rfl
    · have hx2 : q x = false := by simpa using hx
      rw [List.filter_cons, if_neg hx]
      show dedupFirst (xs.filter q)
          = (x :: (dedupFirst xs).filter (fun y => !(y == x))).filter q
      rw [List.filter_cons, if_neg hx, ih, List.filter_filter]
      apply List.filter_congr
      intro y _
      cases hyq : q y
      · simp
      · have hyx : (y == x) = false := by
          by_cases hxy : y = x
          · subst hxy
            rw [hx2] at hyq
            simp at hyq
          · simpa using hxy
        simp [hyx, hyq]

theorem dedupFirst_nodup : ∀ l : List String, (dedupFirst l).Nodup := by
  intro l
  induction l with
  | nil => exact List.nodup_nil
  | cons p ps ih =>
    show (p :: (dedupFirst ps).filter (fun q => !(q == p))).Nodup
    rw [List.nodup_cons]
    refine ⟨?_, List.Nodup.filter _ ih⟩
    intro hmem
    have := List.of_mem_filter hmem
    simp at this

theorem foldl_appendIfNew :
    ∀ (l acc : List String),
      l.foldl appendIfNew acc
        = acc ++ dedupFirst (l.filter (fun q => decide (q ∉ acc))) := by
  intro l
  induction l with
  | nil => intro acc; simp [dedupFirst]
  | cons p ps ih =>
    intro acc
    rw [List.foldl_cons]
    by_cases hp : p ∈ acc
    · rw [show appendIfNew acc p = acc from by simp [appendIfNew, hp], ih acc,
        List.filter_cons, if_neg (by simpa using hp)]
    · rw [show appendIfNew acc p = acc ++ [p] from by simp [appendIfNew, hp],
        ih (acc ++ [p]), List.filter_cons, if_pos (by simpa using hp)]
      show (acc ++ [p]) ++ dedupFirst (ps.filter (fun q => decide (q ∉ acc ++ [p])))
          = acc ++ (p :: (dedupFirst (ps.filter (fun q => decide (q ∉ acc)))).filter
              (fun q => !(q == p)))
      rw [show ps.filter (fun q => decide (q ∉ acc ++ [p]))
            = (ps.filter (fun q => decide (q ∉ acc))).filter (fun q => !(q == p)) from by
          rw [List.filter_filter]
          apply List.filter_congr
          intro x _
          by_cases h1 : x ∈ acc <;> by_cases h2 : x = p <;>
            simp [h1, h2, List.mem_append],
        dedupFirst_filter, List.append_assoc, List.singleton_append]

theorem classifyStep_spec (acc : Option String × List String × List String)
    (p : String) :
    (classifyStep acc p).2.1
      = if specBranch p then appendIfNew acc.2.1 p else acc.2.1 := by
  unfold classifyStep specBranch
  by_cases h1 : isGenderTok p
  · simp [h1]
  · by_cases h2 : isSpecTok p
    · simp [h1, h2]
    · by_cases h3 : isQualTok p <;> simp [h1, h2, h3]

theorem classifyStep_qual (acc : Option String × List String × List String)
    (p : String) :
    (classifyStep acc p).2.2
      = if qualBranch p then appendIfNew acc.2.2 p else acc.2.2 := by
  unfold classifyStep qualBranch
  by_cases h1 : isGenderTok p
  · simp [h1]
  · by_cases h2 : isSpecTok p
    · simp [h1, h2]
    · by_cases h3 : isQualTok p <;> simp [h1, h2, h3]

theorem classifyParts_spec_proj :
    ∀ (parts : List String) (g : Option String) (s q : List String),
      (parts.foldl classifyStep (g, s, q)).2.1
        = (parts.filter specBranch).foldl appendIfNew s := by
  intro parts
  induction parts with
  | nil => intro g s q; rfl
  | cons p parts ih =>
    intro g s q
    rcases hcs : classifyStep (g, s, q) p with ⟨g2, s2, q2⟩
    have hspec := classifyStep_spec (g, s, q) p
    rw [hcs] at hspec
    have hs2 : s2 = if specBranch p then appendIfNew s p else s := hspec
    rw [List.foldl_cons, hcs, List.filter_cons]
    by_cases hb : specBranch p
    · rw [if_pos hb, List.foldl_cons, ih g2 s2 q2, hs2, if_pos hb]
    · rw [if_neg hb, ih g2 s2 q2, hs2, if_neg hb]

theorem classifyParts_qual_proj :
    ∀ (parts : List String) (g : Option String) (s q : List String),
      (parts.foldl classifyStep (g, s, q)).2.2
        = (parts.filter qualBranch).foldl appendIfNew q := by
  intro parts
  induction parts with
  | nil => intro g s q; rfl
  | cons p parts ih =>
    intro g s q
    rcases hcs : classifyStep (g, s, q) p with ⟨g2, s2, q2⟩
    have hqual := classifyStep_qual (g, s, q) p
    rw [hcs] at hqual
    have hq2 : q2 = if qualBranch p then appendIfNew q p else q := hqual
    rw [List.foldl_cons, hcs, List.filter_cons]
    by_cases hb : qualBranch p
    · rw [if_pos hb, List.foldl_cons, ih g2 s2 q2, hq2, if_pos hb]
    · rw [if_neg hb, ih g2 s2 q2, hq2, if_neg hb]

theorem foldl_appendIfNew_nil (l : List String) :
    l.foldl appendIfNew [] = dedupFirst l := by
  rw [foldl_appendIfNew l [], List.nil_append,
    show l.filter (fun q => decide (q ∉ ([] : List String))) = l from
      List.filter_eq_self.mpr (fun a _ => by simp)]

/-- C7 counterexample: the languages list is never de-duplicated — a
paragraph `"Speaks English, English"` yields the languages list
`["English", "English"]`, which has a (case-sensitive) repeat. -/
theorem languages_not_deduped_cex :
    (extract_single_doctor_info
        ⟨fun _ => none, ["Speaks English, English"]⟩).languages
      = ["English", "English"]
  ∧ ¬ (extract_single_doctor_info
        ⟨fun _ => none, ["Speaks English, English"]⟩).languages.Nodup := by
  decide

/-- C7 amended: the specialties and qualifications lists are built with
a membership check before each append, so each preserves first-seen
insertion order and contains no repeated (case-sensitive) entry — each
list equals the first-occurrence de-duplication of its classified token
stream, in line order — for every extracted record; the languages list
is not de-duplicated and may contain repeats. -/
theorem specialties_qualifications_first_seen_nodup (e : DoctorElem) :
    (extract_single_doctor_info e).specialties
        = dedupFirst (classifiedSpecTokens e)
  ∧ (extract_single_doctor_info e).qualifications
        = dedupFirst (classifiedQualTokens e)
  ∧ (extract_single_doctor_info e).specialties.Nodup
  ∧ (extract_single_doctor_info e).qualifications.Nodup := by
  have hdef1 : (extract_single_doctor_info e).specialties
      = (match qualsParagraph e with
         | some u => classifyParts (partsOf u)
         | none => (none, [], [])).2.1 := rfl
  have hdef2 : (extract_single_doctor_info e).qualifications
      = (match qualsParagraph e with
         | some u => classifyParts (partsOf u)
         | none => (none, [], [])).2.2 := rfl
  have hs : (extract_single_doctor_info e).specialties
      = dedupFirst (classifiedSpecTokens e) := by
    rw [hdef1]
    unfold classifiedSpecTokens
    cases hq : qualsParagraph e
    · rfl
    · unfold classifyParts
      rw [classifyParts_spec_proj _ none [] [], foldl_appendIfNew_nil]
  have hq : (extract_single_doctor_info e).qualifications
      = dedupFirst (classifiedQualTokens e) := by
    rw [hdef2]
    unfold classifiedQualTokens
    cases hq : qualsParagraph e
    · rfl
    · unfold classifyParts
      rw [classifyParts_qual_proj _ none [] [], foldl_appendIfNew_nil]
  refine ⟨hs, hq, ?_, ?_⟩
  · rw [hs]; exact dedupFirst_nodup _
  · rw [hq]; exact dedupFirst_nodup _

example :
    (extract_single_doctor_info
      ⟨fun _ => none,
       ["General Practitioner, MBBS, General Practitioner, MBBS, FRACGP"]⟩).specialties
      = ["General Practitioner"]
  ∧ (extract_single_doctor_info
      ⟨fun _ => none,
       ["General Practitioner, MBBS, General Practitioner, MBBS, FRACGP"]⟩).qualifications
      = ["MBBS", "FRACGP"] := by decide

/-! ### Candidate cascade and admission filter -/

/-- C1: every record returned by `extract_doctor_info` has a present,
non-empty (cleaned) name — a per-element record whose name is `None` or
`''` is discarded by the admission filter, for every page and candidate
set. -/
theorem extract_doctor_info_name_nonempty (soup : Soup) (d : DoctorInfo)
    (hd : d ∈ extract_doctor_info soup) : ∃ s, d.name = some s ∧ s ≠ "" := by
  unfold extract_doctor_info at hd
  have h := (List.mem_filter.mp hd).2
  cases hn : d.name with
  | none => rw [hn] at h; simp [truthyName] at h
  | some s =>
    refine ⟨s, rfl, ?_⟩
    rw [hn] at h
    simpa [truthyName] using h

/-- Concrete page for the C1 witness: one doctor row whose name element
reads `Dr Jane Doe`. -/
def exSoup1 : Soup :=
  ⟨fun sel =>
    if sel == ".DoctorAvailabilityRow" then
      [⟨fun s => if s == ".DoctorAvailabilityRow-doctorLink"
                 then some "Dr Jane Doe" else none, []⟩]
    else [], []⟩

/-- C1 witness: the record extracted from `exSoup1`, with its
guaranteed nonempty cleaned name. -/
theorem extract_doctor_info_name_nonempty_witness :
    ∃ s, (⟨some "Jane Doe", some "Dr", [], [], [], none⟩ : DoctorInfo).name
          = some s ∧ s ≠ "" :=
  extract_doctor_info_name_nonempty exSoup1
    ⟨some "Jane Doe", some "Dr", [], [], [], none⟩ (by decide)

theorem selectCascade_first (soup : Soup) :
    ∀ (l1 : List String) (sel : String) (l2 : List String),
      (∀ s2 ∈ l1, soup.select s2 = []) → soup.select sel ≠ [] →
      selectCascade soup (l1 ++ sel :: l2) = soup.select sel := by
  intro l1
  induction l1 with
  | nil =>
    intro sel l2 _ hne
    show (if (soup.select sel).isEmpty then _ else _) = _
    rw [if_neg (by simpa [List.isEmpty_iff] using hne)]
  | cons a l1 ih =>
    intro sel l2 hall hne
    show (if (soup.select a).isEmpty then _ else _) = _
    rw [hall a (by simp)]
    simp only [List.isEmpty_nil, if_true]
    exact ih sel l2 (fun s2 hs2 => hall s2 (by simp [hs2])) hne

theorem selectCascade_all_empty (soup : Soup) :
    ∀ L : List String, (∀ s2 ∈ L, soup.select s2 = []) →
      selectCascade soup L = [] := by
  intro L
  induction L with
  | nil => intro _; rfl
  | cons a L ih =>
    intro hall
    show (if (soup.select a).isEmpty then _ else _) = _
    rw [hall a (by simp)]
    simp only [List.isEmpty_nil, if_true]
    exact ih (fun s2 hs2 => hall s2 (by simp [hs2]))

/-- C2: the doctor selectors are evaluated in their configured order;
the candidate set (and hence the whole extraction) comes from exactly
the first selector matching at least one element, never merging
selectors, and the link-pattern fallback is used only when every
selector matched nothing. -/
theorem doctor_selector_cascade_first_match (soup : Soup) :
    (∀ (l1 : List String) (sel : String) (l2 : List String),
        doctor_selectors = l1 ++ sel :: l2 →
        (∀ s2 ∈ l1, soup.select s2 = []) → soup.select sel ≠ [] →
        doctorCandidates soup = soup.select sel
          ∧ extract_doctor_info soup
              = ((soup.select sel).map extract_single_doctor_info).filter
                  (fun d => truthyName d.name))
  ∧ ((∀ s2 ∈ doctor_selectors, soup.select s2 = []) →
      doctorCandidates soup = linkFallback soup) := by
  constructor
  · intro l1 sel l2 hdecomp hall hne
    have hc : selectCascade soup doctor_selectors = soup.select sel := by
      rw [hdecomp]
      exact selectCascade_first soup l1 sel l2 hall hne
    have hcand : doctorCandidates soup = soup.select sel := by
      unfold doctorCandidates
      rw [hc, if_neg (by simpa [List.isEmpty_iff] using hne)]
    refine ⟨hcand, ?_⟩
    unfold extract_doctor_info
    rw [hcand]
  · intro hall
    unfold doctorCandidates
    rw [selectCascade_all_empty soup doctor_selectors hall]
    simp

/-- Concrete page for the C2 witness, first branch: the first selector
matches nothing, the second matches one element. -/
def exSoup2 : Soup :=
  ⟨fun sel => if sel == ".doctor-card" then [⟨fun _ => none, []⟩] else [], []⟩

/-- Concrete page for the C2 witness, second branch: no selector
matches, one qualifying link with a classed parent. -/
def exSoup3 : Soup :=
  ⟨fun _ => [],
   [⟨"/medical-centres/m/doctors/d", [⟨true, ⟨fun _ => none, []⟩⟩]⟩]⟩

/-- C2 witness: both branches of the cascade theorem at concrete pages. -/
theorem doctor_selector_cascade_first_match_witness :
    doctorCandidates exSoup2 = exSoup2.select ".doctor-card"
  ∧ doctorCandidates exSoup3 = linkFallback exSoup3 := by
  constructor
  · exact ((doctor_selector_cascade_first_match exSoup2).1
      [".DoctorAvailabilityRow"] ".doctor-card"
      [".practitioner-card", ".provider-card", ".doctor-profile",
       "[data-testid=\"doctor-card\"]", ".practitioner-list .practitioner",
       ".doctor-item"] rfl
      (by intro s2 hs2; rw [List.mem_singleton] at hs2; subst hs2; rfl)
      (by
        rw [show exSoup2.select ".doctor-card"
            = [(⟨fun _ => none, []⟩ : DoctorElem)] from rfl]
        exact List.cons_ne_nil _ _)).1
  · exact (doctor_selector_cascade_first_match exSoup3).2
      (by intro s2 hs2; rfl)

/-! ### Fetch retries -/

theorem getPageAux_spec (fetch : Nat → Option α) :
    ∀ (n i : Nat),
      (getPageAux fetch n i = none ↔ ∀ k, k < n → fetch (i + k) = none)
      ∧ (∀ p, getPageAux fetch n i = some p →
          ∃ k, k < n ∧ fetch (i + k) = some p
            ∧ ∀ j, j < k → fetch (i + j) = none) := by
  intro n
  induction n with
  | zero =>
    intro i
    refine ⟨⟨fun _ k hk => absurd hk (Nat.not_lt_zero k), fun _ => rfl⟩, ?_⟩
    intro p hp
    exact absurd hp (by simp [getPageAux])
  | succ n ih =>
    intro i
    constructor
    · constructor
      · intro h k hk
        cases hf : fetch i with
        | some p =>
          exact absurd h (by simp [getPageAux, hf])
        | none =>
          cases k with
          | zero => simpa using hf
          | succ k2 =>
            have h2 : getPageAux fetch n (i + 1) = none := by
              simpa [getPageAux, hf] using h
            have h3 := ((ih (i + 1)).1.mp h2) k2 (by omega)
            have h4 : i + 1 + k2 = i + (k2 + 1) := by omega
            rwa [h4] at h3
      · intro hall
        cases hf : fetch i with
        | some p =>
          have h0 := hall 0 (Nat.succ_pos n)
          rw [Nat.add_zero, hf] at h0
          exact absurd h0 (by simp)
        | none =>
          have h2 : getPageAux fetch n (i + 1) = none := by
            apply (ih (i + 1)).1.mpr
            intro k hk
            have h3 := hall (k + 1) (by omega)
            have h4 : i + 1 + k = i + (k + 1) := by omega
            rwa [h4]
          simpa [getPageAux, hf] using h2
    · intro p hp
      cases hf : fetch i with
      | some q =>
        have hq : q = p := by simpa [getPageAux, hf] using hp
        exact ⟨0, Nat.succ_pos n, by rw [Nat.add_zero, hf, hq],
          fun j hj => absurd hj (Nat.not_lt_zero j)⟩
      | none =>
        have h2 : getPageAux fetch n (i + 1) = some p := by
          simpa [getPageAux, hf] using hp
        obtain ⟨k, hk, hfk, hprev⟩ := (ih (i + 1)).2 p h2
        refine ⟨k + 1, by omega, ?_, ?_⟩
        · have h4 : i + 1 + k = i + (k + 1) := by omega
          rwa [h4] at hfk
        · intro j hj
          cases j with
          | zero => simpa using hf
          | succ j2 =>
            have h5 := hprev j2 (by omega)
            have h6 : i + 1 + j2 = i + (j2 + 1) := by omega
            rwa [h6] at h5

/-- C9: `get_page` performs up to `max_retries` fetch attempts and
returns `none` exactly when all of them fail — the per-attempt
`RequestException` is absorbed, and on exhaustion the failure signal is
returned rather than an exception, for every fetch behaviour; a
successful result is the outcome of the first succeeding attempt.  (The
randomized inter-attempt delays and log lines do not affect the
returned value and are outside the embedding.) -/
theorem get_page_retry_characterization (fetch : Nat → Option α) (n : Nat) :
    (get_page fetch n = none ↔ ∀ i, i < n → fetch i = none)
    ∧ (∀ p, get_page fetch n = some p →
        ∃ i, i < n ∧ fetch i = some p ∧ ∀ j, j < i → fetch j = none) := by
  have h := getPageAux_spec fetch n 0
  unfold get_page
  constructor
  · constructor
    · intro h1 i hi
      simpa using (h.1.mp h1) i hi
    · intro h1
      exact h.1.mpr (fun k hk => by simpa using h1 k hk)
  · intro p hp
    obtain ⟨k, hk, hfk, hprev⟩ := h.2 p hp
    exact ⟨k, hk, by simpa using hfk, fun j hj => by simpa using hprev j hj⟩

/-- Concrete fetch behaviour for the C9 witness: the first attempt
fails, the second succeeds. -/
def fetchW : Nat → Option Nat := fun i => if i == 1 then some 7 else none

/-- C9 witness: with the default three attempts, `get_page` returns the
result of the first successful attempt. -/
theorem get_page_retry_characterization_witness :
    ∃ i, i < max_retries_default ∧ fetchW i = some 7
      ∧ ∀ j, j < i → fetchW j = none :=
  (get_page_retry_characterization fetchW max_retries_default).2 7 (by decide)

/-! ### Rating statistics -/

/-- The value a record contributes to the ratings list: its rating when
truthy, nothing otherwise. -/
def truthyVal : Option ℚ → Option ℚ
  | none => none
  | some x => if x = 0 then none else some x

theorem ratingsList_foldl (data : List (Option ℚ)) :
    ∀ acc : List ℚ,
      data.foldl (fun acc r =>
        match r with
        | some x => if !(x == 0) then acc ++ [x] else acc
        | none => acc) acc
      = acc ++ data.filterMap truthyVal := by
  induction data with
  | nil => intro acc; simp
  | cons r data ih =>
    intro acc
    cases r with
    | none => simpa [truthyVal] using ih acc
    | some x =>
      by_cases hx : x = 0
      · simpa [hx, truthyVal] using ih acc
      · simpa [hx, truthyVal] using ih (acc ++ [x])

theorem ratingsList_eq_filterMap (data : List (Option ℚ)) :
    ratingsList data = data.filterMap truthyVal := by
  have h := ratingsList_foldl data []
  rw [List.nil_append] at h
  exact h

/-- C10: in `get_statistics` a record is counted in
`doctors_with_ratings` and contributes to `average_rating` exactly when
its rating is truthy — the ratings list is the truthy ratings in order,
replacing a `0` rating by an absent one changes nothing, and when no
record has a truthy rating (and the data is nonempty, so statistics are
produced at all) the count and the average both stay 0. -/
theorem get_statistics_rating_truthiness (data : List (Option ℚ)) :
    (ratingsList data = data.filterMap truthyVal)
    ∧ (get_statistics (data.map (fun r => if r = some 0 then none else r))
        = get_statistics data)
    ∧ (data ≠ [] → (∀ r ∈ data, truthyRating r = false) →
        get_statistics data = some ⟨0, 0⟩) := by
  refine ⟨ratingsList_eq_filterMap data, ?_, ?_⟩
  · have hrl : ratingsList (data.map (fun r => if r = some 0 then none else r))
        = ratingsList data := by
      rw [ratingsList_eq_filterMap, ratingsList_eq_filterMap,
        List.filterMap_map]
      congr 1
      funext r
      cases r with
      | none => rfl
      | some x =>
        by_cases hx : x = 0
        · simp [hx, truthyVal]
        · simp [hx, truthyVal, Function.comp]
    have hmap : (data.map (fun r => if r = some 0 then none else r)).isEmpty
        = data.isEmpty := by
      cases data <;> rfl
    unfold get_statistics
    rw [hrl, hmap]
  · intro hne hall
    have hrl : ratingsList data = [] := by
      rw [ratingsList_eq_filterMap]
      apply List.filterMap_eq_nil_iff.mpr
      intro r hr
      have := hall r hr
      cases r with
      | none => rfl
      | some x =>
        have hx : x = 0 := by simpa [truthyRating] using this
        simp [truthyVal, hx]
    unfold get_statistics
    rw [hrl, if_neg (by simpa [List.isEmpty_iff] using hne)]
    simp

/-- C10 witness: a zero rating and an absent rating produce the empty
statistics (count 0, average 0). -/
theorem get_statistics_rating_truthiness_witness :
    get_statistics [some 0, none] = some ⟨0, 0⟩ :=
  (get_statistics_rating_truthiness [some 0, none]).2.2 (by decide) (by decide)

/-! ### Clinic address precedence -/

/-- A clinic URL from which suburb, state and postcode are derivable. -/
def exUrlC3 : String := "/medical-centres/armadale-VIC-3143/clinic/doctors"

/-- A clinic page with no meta description and a structured address
element whose text is shorter than the URL-derived address. -/
def exDocC3 : ClinicDoc :=
  ⟨none, fun sel => if sel == ".clinic-address" then some "1 X St" else none⟩

/-- Like `exDocC3` but with a structured address text longer than the
URL-derived address. -/
def exDocC3w : ClinicDoc :=
  ⟨none, fun sel =>
    if sel == ".clinic-address"
    then some "12 Long Street Name, Armadale, VIC 3143, Australia" else none⟩

/-- C3 counterexample: on a page where both a structured address
element (`"1 X St"`) and URL-path components are derivable, the
returned address fields come from the URL, not from the structured
element — the structured text is ignored because it is not longer than
the URL-derived address. -/
theorem clinic_address_url_not_overridden_cex :
    firstSelectOneText exDocC3 address_selectors = some "1 X St"
  ∧ urlDerivedAddress exUrlC3 = some ("Armadale", "VIC", "3143")
  ∧ extract_clinic_info_address exDocC3 exUrlC3
      = ⟨some "Armadale, VIC 3143", some "Armadale", some "VIC", some "3143"⟩
  ∧ (⟨some "Armadale, VIC 3143", some "Armadale", some "VIC",
      some "3143"⟩ : ClinicAddress).address ≠ some "1 X St" := by decide

/-- C3 amended: the URL-path-derived values are computed first, and the
structured address element's text replaces the address only when it is
strictly longer than the URL-derived address string; when it is not
longer, the address, suburb, state and postcode are the four
URL-derived values, returned unchanged.  (Stated for pages whose meta
description derives no address, so that the URL branch runs.) -/
theorem clinic_address_length_precedence (doc : ClinicDoc) (url : String)
    (su st pc t : String)
    (hmeta : ∀ d, doc.metaDescription = some d → metaSearch d.toList = none)
    (hurl : urlDerivedAddress url = some (su, st, pc))
    (hsel : firstSelectOneText doc address_selectors = some t)
    (ht : t ≠ "") :
    (¬ (su ++ ", " ++ st ++ " " ++ pc).length < t.length →
        extract_clinic_info_address doc url
          = ⟨some (su ++ ", " ++ st ++ " " ++ pc), some su, some st, some pc⟩)
    ∧ ((su ++ ", " ++ st ++ " " ++ pc).length < t.length →
        (extract_clinic_info_address doc url).address = some t) := by
  have h1 : metaStep doc = ⟨none, none, none, none⟩ := by
    unfold metaStep
    cases hm : doc.metaDescription with
    | none => rfl
    | some d =>
      have h := hmeta d hm
      simp only [String.toList] at h
      simp [h]
  have h2 : urlStep (metaStep doc) url
      = ⟨some (su ++ ", " ++ st ++ " " ++ pc), some su, some st, some pc⟩ := by
    rw [h1]
    unfold urlStep
    simp only [truthyOpt, Bool.false_eq_true, if_false, hurl]
  have hbeq : (t == "") = false := by
    simpa using ht
  unfold extract_clinic_info_address
  rw [h2]
  unfold structuredStep
  rw [hsel]
  simp only [hbeq, Bool.false_eq_true, if_false]
  constructor
  · intro hlen
    rw [if_neg hlen]
  · intro hlen
    rw [if_pos hlen]
    split
    · split
      · rfl
      · rfl
    · rfl

/-- C3 witness: with a structured address text longer than the
URL-derived address, the structured text becomes the address. -/
theorem clinic_address_length_precedence_witness :
    (extract_clinic_info_address exDocC3w exUrlC3).address
      = some "12 Long Street Name, Armadale, VIC 3143, Australia" := by
  have h := clinic_address_length_precedence exDocC3w exUrlC3
    "Armadale" "VIC" "3143"
    "12 Long Street Name, Armadale, VIC 3143, Australia"
    (fun d hd => by simp [exDocC3w] at hd)
    (by decide) (by decide) (by decide)
  exact h.2 (by decide)
